import Mathlib

/-!
Verification development for the BakingApp dessert-recipe frontend.

The source under scrutiny is src/src/components/RecipeDisplay.tsx (which also
holds the service module of the app: expandUnits, getWikimediaImage,
fetchRecipeDetails, fetchDessertRecipes, getRandomDessertRecipe, and the view
helper getInstructionSteps).  The JavaScript text transforms are embedded as
executable Lean functions over lists of characters; the regular expressions of
the source are compiled by hand into deterministic scanners that mirror the
backtracking behaviour of the JavaScript engine on these particular patterns.
HTTP calls are modelled by passing the decoded responses (and the draws of
Math.random, as rationals in the unit interval) as explicit arguments.
-/

/-! ### Character classes used by the JavaScript regular expressions -/

/-- The JavaScript word-character class backslash-w: ASCII letters, digits and
underscore.  Used for the word-boundary assertions of the source regexes. -/
def isWordChar (c : Char) : Bool :=
  c.isAlphanum || c == '_'

/-- The JavaScript whitespace class backslash-s restricted to the characters
that can occur in the data handled here. -/
def isJsWS (c : Char) : Bool :=
  c == ' ' || c == '\t' || c == '\n' || c == '\r' || c == '\x0b' || c == '\x0c'

/-- ASCII uppercase letters, the class [A-Z] of the sentence-split regex. -/
def isUpperAZ (c : Char) : Bool :=
  'A' ≤ c && c ≤ 'Z'

/-- JavaScript String.prototype.trim on a character list. -/
def jsTrimList (l : List Char) : List Char :=
  ((l.dropWhile isJsWS).reverse.dropWhile isJsWS).reverse

/-- JavaScript String.prototype.trim. -/
def jsTrim (s : String) : String :=
  String.mk (jsTrimList s.data)

/-- Numeric value of a digit string, agreeing with parseInt on inputs made of
decimal digits only. -/
def digitsToNat (l : List Char) : Nat :=
  l.foldl (fun acc c => acc * 10 + (c.toNat - '0'.toNat)) 0

/-- Case-sensitive prefix test: if the pattern is an exact prefix of the input,
return the input with the prefix removed. -/
def chopCS : List Char → List Char → Option (List Char)
  | [], s => some s
  | _ :: _, [] => none
  | c :: w, d :: s => if c == d then chopCS w s else none

/-- Case-insensitive prefix test: like chopCS but comparing lowercased
characters, as the /i regex flag does for ASCII. -/
def chopCI : List Char → List Char → Option (List Char)
  | [], s => some s
  | _ :: _, [] => none
  | c :: w, d :: s => if c.toLower == d.toLower then chopCI w s else none

/-! ### Plain global substring replacement

Models a JavaScript replace with a literal (escaped) pattern and the g flag:
left-to-right, non-overlapping.  The fuel argument bounds the recursion; every
step consumes at least one input character, so fuel equal to the input length
is always sufficient, and the wrappers below always supply it. -/

/-- One fuelled scanning pass replacing every occurrence of a non-empty
pattern. -/
def replaceAllAux (fuel : Nat) (pat repl : List Char) (s : List Char) : List Char :=
  match fuel, s with
  | 0, s => s
  | _, [] => []
  | f + 1, c :: rest =>
    match chopCS pat (c :: rest) with
    | some after => repl ++ replaceAllAux f pat repl after
    | none => c :: replaceAllAux f pat repl rest

/-- Global substring replacement with fuel supplied. -/
def replaceAllL (pat repl s : List Char) : List Char :=
  replaceAllAux s.length pat repl s

/-! ### Whole-word replacement

Models the source regexes of the shape word-boundary WORD word-boundary
optional-dot (with or without the /i flag), e.g. backslash-b tsp backslash-b
backslash-dot-question with /gi.  The scanner keeps track of whether the
previously consumed input character is a word character, which decides the
boundary before a candidate match; the boundary after the word requires the
next character to be a non-word character or the end of the input.  All unit
words of the source end in a letter, so after a match without a consumed dot
the previous character is a word character. -/

/-- One fuelled scanning pass for whole-word replacement.  ci selects
case-insensitive matching, dot selects consumption of an optional trailing
period (the backslash-dot-question of the source patterns). -/
def wordReplaceAux (fuel : Nat) (ci dot : Bool) (w repl : List Char) (prevW : Bool)
    (s : List Char) : List Char :=
  match fuel, s with
  | 0, s => s
  | _, [] => []
  | f + 1, c :: rest =>
    if prevW then c :: wordReplaceAux f ci dot w repl (isWordChar c) rest
    else
      match (if ci then chopCI w (c :: rest) else chopCS w (c :: rest)) with
      | some after =>
        if (match after with | [] => true | a :: _ => !isWordChar a) then
          if dot then
            match after with
            | '.' :: after2 => repl ++ wordReplaceAux f ci dot w repl false after2
            | _ => repl ++ wordReplaceAux f ci dot w repl true after
          else repl ++ wordReplaceAux f ci dot w repl true after
        else c :: wordReplaceAux f ci dot w repl (isWordChar c) rest
      | none => c :: wordReplaceAux f ci dot w repl (isWordChar c) rest

/-- Whole-word replacement with fuel supplied and no preceding word
character. -/
def wordReplaceL (ci dot : Bool) (w repl : List Char) (s : List Char) : List Char :=
  wordReplaceAux s.length ci dot w repl false s

/-! ### The fluid-ounce pattern

Models backslash-b fl backslash-dot-question backslash-s-star oz backslash-b
backslash-dot-question with /gi.  The pattern is tried at positions preceded by
a non-word character; it reads fl case-insensitively, an optional period, any
run of whitespace, then oz with a word boundary after it and an optional
trailing period.  On this pattern the JavaScript engine never succeeds through
backtracking of the optional period or the whitespace star, so the greedy
reading below is faithful. -/

/-- Try the fl-oz pattern at the start of the input; on success return the
rest of the input and whether the last consumed character was a period. -/
def flozMatch (s : List Char) : Option (List Char × Bool) :=
  match chopCI ['f', 'l'] s with
  | none => none
  | some r1 =>
    let r2 := match r1 with | '.' :: t => t | _ => r1
    let r3 := r2.dropWhile isJsWS
    match chopCI ['o', 'z'] r3 with
    | none => none
    | some r4 =>
      if (match r4 with | [] => true | a :: _ => !isWordChar a) then
        match r4 with
        | '.' :: r5 => some (r5, true)
        | _ => some (r4, false)
      else none

/-- One fuelled scanning pass for the fluid-ounce replacement. -/
def flozAux (fuel : Nat) (repl : List Char) (prevW : Bool) (s : List Char) : List Char :=
  match fuel, s with
  | 0, s => s
  | _, [] => []
  | f + 1, c :: rest =>
    if prevW then c :: flozAux f repl (isWordChar c) rest
    else
      match flozMatch (c :: rest) with
      | some (after, dotConsumed) => repl ++ flozAux f repl (!dotConsumed) after
      | none => c :: flozAux f repl (isWordChar c) rest

/-- Fluid-ounce replacement with fuel supplied. -/
def flozL (repl : List Char) (s : List Char) : List Char :=
  flozAux s.length repl false s

/-! ### The pluralization pass

Models the source regexes of the shape group-digits backslash-s-star UNIT
negative-lookahead-s with /gi and the replacer that appends an s unless
parseInt of the digit group equals one.  The pattern has no word-boundary
assertion, so a match may start at any digit; the digit group and the
whitespace are effectively maximal runs, and the match fails when the
lookahead sees an s (of either case) right after the unit word. -/

/-- One fuelled scanning pass for a pluralization rule; unit is the unit word
in lowercase. -/
def pluralAux (fuel : Nat) (unit : List Char) (s : List Char) : List Char :=
  match fuel, s with
  | 0, s => s
  | _, [] => []
  | f + 1, c :: rest =>
    if c.isDigit then
      let num := (c :: rest).takeWhile Char.isDigit
      let r1 := (c :: rest).dropWhile Char.isDigit
      let ws := r1.takeWhile isJsWS
      let r2 := r1.dropWhile isJsWS
      match chopCI unit r2 with
      | some after =>
        if (match after with | a :: _ => a.toLower == 's' | [] => false) then
          c :: pluralAux f unit rest
        else
          let matched := num ++ ws ++ r2.take unit.length
          if digitsToNat num == 1 then matched ++ pluralAux f unit after
          else matched ++ 's' :: pluralAux f unit after
      | none => c :: pluralAux f unit rest
    else c :: pluralAux f unit rest

/-- Pluralization pass with fuel supplied. -/
def pluralL (unit : List Char) (s : List Char) : List Char :=
  pluralAux s.length unit s

/-! ### UnitExpander: expandUnits of RecipeDisplay.tsx lines 253 to 289 -/

/-- The expandUnits function of the source: vulgar-fraction substitution, then
the chain of unit-word expansions in source order, then the three
pluralization passes, then trim.  Empty input is returned unchanged by the
falsy guard of the source. -/
def expandUnits (measure : String) : String :=
  if measure = "" then measure else
  let s := measure.data
  let s := replaceAllL "1/2".data "½".data s
  let s := replaceAllL "1/3".data "⅓".data s
  let s := replaceAllL "2/3".data "⅔".data s
  let s := replaceAllL "1/4".data "¼".data s
  let s := replaceAllL "3/4".data "¾".data s
  let s := replaceAllL "1/8".data "⅛".data s
  let s := wordReplaceL true true "tsp".data "teaspoon".data s
  let s := wordReplaceL true true "tbsp".data "tablespoon".data s
  let s := wordReplaceL true true "tbl".data "tablespoon".data s
  let s := wordReplaceL false true "T".data "tablespoon".data s
  let s := wordReplaceL false true "t".data "teaspoon".data s
  let s := wordReplaceL true true "oz".data "ounce".data s
  let s := wordReplaceL true true "lb".data "pound".data s
  let s := wordReplaceL true true "lbs".data "pounds".data s
  let s := wordReplaceL true true "pt".data "pint".data s
  let s := wordReplaceL true true "qt".data "quart".data s
  let s := wordReplaceL true true "gal".data "gallon".data s
  let s := flozL "fluid ounce".data s
  let s := wordReplaceL true false "g".data "gram".data s
  let s := wordReplaceL true false "kg".data "kilogram".data s
  let s := wordReplaceL true false "ml".data "milliliter".data s
  let s := wordReplaceL true false "l".data "liter".data s
  let s := pluralL "teaspoon".data s
  let s := pluralL "tablespoon".data s
  let s := pluralL "ounce".data s
  String.mk (jsTrimList s)

/-! ### StepSegmenter: getInstructionSteps of RecipeDisplay.tsx lines 90 to 105

Strategy 1 is the global match of digits period whitespace-star lazy-non-digits
followed-by digits-period-or-end.  For this pattern a match attempt at a
position succeeds exactly when the position starts a maximal digit run
followed by a period, and the non-digit text after it runs up to the first
later digit, which must itself start a digit run followed by a period (or the
text runs to the end of the input).  On failure the scan advances one
character; on success it continues at the end of the match. -/

/-- Try the numbered-step pattern at the start of the input; on success return
the matched text and the rest of the input. -/
def matchNumberedAt (s : List Char) : Option (List Char × List Char) :=
  let ds := s.takeWhile Char.isDigit
  let r1 := s.dropWhile Char.isDigit
  if ds.isEmpty then none else
  match r1 with
  | '.' :: r2 =>
    let body := r2.takeWhile (fun c => !c.isDigit)
    let r3 := r2.dropWhile (fun c => !c.isDigit)
    match r3 with
    | [] => some (ds ++ '.' :: body, [])
    | _ :: _ =>
      match r3.dropWhile Char.isDigit with
      | '.' :: _ => some (ds ++ '.' :: body, r3)
      | _ => none
  | _ => none

/-- Fuelled global scan collecting the numbered-step matches. -/
def numberedMatchesAux (fuel : Nat) (s : List Char) : List String :=
  match fuel, s with
  | 0, _ => []
  | _, [] => []
  | f + 1, c :: rest =>
    match matchNumberedAt (c :: rest) with
    | some (m, after) => String.mk m :: numberedMatchesAux f after
    | none => numberedMatchesAux f rest

/-- All matches of the numbered-step regex, as String.prototype.match with the
g flag returns them (the null result is modelled by the empty list). -/
def numberedMatches (instructions : String) : List String :=
  numberedMatchesAux instructions.data.length instructions.data

/-- The per-step replace of the leading marker, anchored digits period
whitespace-star without the g flag: strip the marker when the string starts
with one, otherwise return the string unchanged. -/
def stripMarker (st : String) : String :=
  let s := st.data
  let ds := s.takeWhile Char.isDigit
  let r1 := s.dropWhile Char.isDigit
  if ds.isEmpty then st else
  match r1 with
  | '.' :: r2 => String.mk (r2.dropWhile isJsWS)
  | _ => st

/-- Fuelled scan splitting on the fallback delimiters: a period followed by at
least one whitespace character followed by an ASCII uppercase letter (the
period and whitespace are consumed), or a run of two or more newlines. -/
def sentenceSplitAux (fuel : Nat) (cur : List Char) (s : List Char) : List String :=
  match fuel, s with
  | 0, s => [String.mk (cur.reverse ++ s)]
  | _, [] => [String.mk cur.reverse]
  | f + 1, c :: rest =>
    if c == '.' then
      let ws := rest.takeWhile isJsWS
      let r2 := rest.dropWhile isJsWS
      if !ws.isEmpty && (match r2 with | a :: _ => isUpperAZ a | [] => false) then
        String.mk cur.reverse :: sentenceSplitAux f [] r2
      else sentenceSplitAux f (c :: cur) rest
    else if c == '\n' && (match rest with | b :: _ => b == '\n' | [] => false) then
      String.mk cur.reverse :: sentenceSplitAux f [] (rest.dropWhile (fun x => x == '\n'))
    else sentenceSplitAux f (c :: cur) rest

/-- The String.prototype.split of the fallback strategy. -/
def sentenceSplit (instructions : String) : List String :=
  sentenceSplitAux instructions.data.length [] instructions.data

/-- The final map of the fallback strategy: append a period unless the step
already ends in one. -/
def ensureDot (st : String) : String :=
  if (match st.data.getLast? with | some c => c == '.' | none => false) then st
  else st ++ "."

/-- getInstructionSteps of the source: the numbered-marker strategy when it
finds more than one match, otherwise the sentence-split fallback. -/
def getInstructionSteps (instructions : String) : List String :=
  let numberedSteps := numberedMatches instructions
  if numberedSteps.length > 1 then
    (numberedSteps.map (fun step => jsTrim (stripMarker step))).filter
      (fun step => step.length > 0)
  else
    (((sentenceSplit instructions).map (fun step => jsTrim step)).filter
      (fun step => step.length > 20)).map ensureDot

/-! ### Data model -/

/-- JavaScript truthiness of an optional string field: null, undefined and the
empty string are falsy. -/
def jsTruthy : Option String → Bool
  | none => false
  | some s => s != ""

/-- An ingredient of the assembled Recipe. -/
structure Ingredient where
  name : String
  measure : String
deriving DecidableEq, Repr

/-- The normalized Recipe record returned by fetchRecipeDetails. -/
structure Recipe where
  id : String
  name : String
  image : String
  instructions : String
  ingredients : List Ingredient
  category : String
  area : String
  youtubeUrl : Option String
  tags : Option (List String)
deriving DecidableEq, Repr

/-- A summary entry of the dessert listing endpoint. -/
structure MealSummary where
  idMeal : String
  strMeal : String
  strMealThumb : String
deriving DecidableEq, Repr

/-- The decoded body of the listing endpooint; the meals field may be JSON
null. -/
structure MealListResponse where
  ok : Bool
  statusText : String
  meals : Option (List MealSummary)

/-- A raw detail record of the lookup endpoint.  The twenty ingredient and
measure slots are modelled as functions from the slot index; absent or null
slots are none. -/
structure MealDetail where
  idMeal : String
  strMeal : String
  strMealThumb : Option String
  strInstructions : String
  strCategory : String
  strArea : String
  strYoutube : Option String
  strTags : Option String
  strIngredient : Nat → Option String
  strMeasure : Nat → Option String

/-- The decoded body of the lookup endpoint together with the HTTP status; a
response with zero matching records carries the empty list. -/
structure MealDetailResponse where
  ok : Bool
  statusText : String
  meals : List MealDetail

/-- The error taxonomy of the fetch layer. -/
inductive ApiError where
  | network : String → ApiError
  | recordMissing : ApiError
  | emptyCatalog : ApiError
deriving DecidableEq, Repr

/-! ### ImageResolver: getWikimediaImage of RecipeDisplay.tsx lines 294 to 358

The two Wikimedia endpoints are modelled by an oracle: search takes a query
and yields the file titles (a thrown fetch or JSON error is the error case;
a missing or empty result list is the empty list), and imageInfo takes a file
name and yields the thumburl and url fields of the first page (a missing
pages object or missing imageinfo entry is the pair of nones).  A thrown
error anywhere aborts the whole try block of the source and lands in the
fallback, as does exhausting every variant. -/

/-- Responses of the external image-search service. -/
structure WikiOracle where
  search : String → Except Unit (List String)
  imageInfo : String → Except Unit (Option String × Option String)

/-- Collapse every whitespace run to a single space, as the replace of
whitespace-plus by one space does. -/
def collapseWs : List Char → List Char
  | [] => []
  | c :: rest =>
    if isJsWS c && (match rest with | r :: _ => isJsWS r | [] => false) then
      collapseWs rest
    else (if isJsWS c then ' ' else c) :: collapseWs rest

/-- The search-term normalization of the source: lowercase, remove every
character that is neither a word character nor whitespace, collapse
whitespace, trim. -/
def normalizeSearchTerm (recipeName : String) : String :=
  String.mk (jsTrimList (collapseWs
    ((recipeName.data.map Char.toLower).filter (fun c => isWordChar c || isJsWS c))))

/-- The four query variants tried in order by the source. -/
def wikiVariants (recipeName : String) : List String :=
  let searchTerm := normalizeSearchTerm recipeName
  [searchTerm ++ " dessert", searchTerm ++ " cake", searchTerm ++ " food", searchTerm]

/-- Remove the first occurrence of the literal File: from a title, as the
non-regex replace of the source does. -/
def stripFileTag : List Char → List Char
  | 'F' :: 'i' :: 'l' :: 'e' :: ':' :: rest => rest
  | c :: rest => c :: stripFileTag rest
  | [] => []

/-- The extension filter of the source: skip svg, pdf and txt files,
case-insensitively. -/
def hasBadExt (fileName : List Char) : Bool :=
  let l := String.mk (fileName.map Char.toLower)
  l.endsWith ".svg" || l.endsWith ".pdf" || l.endsWith ".txt"

/-- Case-sensitive substring test for svg, the includes check of the
source. -/
def hasSvg : List Char → Bool
  | 's' :: 'v' :: 'g' :: _ => true
  | _ :: rest => hasSvg rest
  | [] => false

/-- The inner loop over the search results of one query variant: skip bad
extensions, fetch the image info, accept the first truthy URL that does not
mention svg. -/
def tryResults (o : WikiOracle) : List String → Except Unit (Option String)
  | [] => .ok none
  | title :: rest =>
    let fileName := String.mk (stripFileTag title.data)
    if hasBadExt fileName.data then tryResults o rest
    else
      match o.imageInfo fileName with
      | .error e => .error e
      | .ok (thumburl, url) =>
        match (if jsTruthy thumburl then thumburl else url) with
        | some u => if u != "" && !hasSvg u.data then .ok (some u) else tryResults o rest
        | none => tryResults o rest

/-- The outer loop over the query variants. -/
def tryVariants (o : WikiOracle) : List String → Except Unit (Option String)
  | [] => .ok none
  | v :: rest =>
    match o.search v with
    | .error e => .error e
    | .ok results =>
      match tryResults o results with
      | .error e => .error e
      | .ok (some u) => .ok (some u)
      | .ok none => tryVariants o rest

/-- The curated fallback pool of the source. -/
def fallbackImages : List String :=
  ["https://upload.wikimedia.org/wikipedia/commons/thumb/6/6d/Good_Food_Display_-_NCI_Visuals_Online.jpg/800px-Good_Food_Display_-_NCI_Visuals_Online.jpg",
   "https://upload.wikimedia.org/wikipedia/commons/thumb/5/5b/Chocolate_cake.jpg/800px-Chocolate_cake.jpg",
   "https://upload.wikimedia.org/wikipedia/commons/thumb/d/d3/Desserts.jpg/800px-Desserts.jpg",
   "https://upload.wikimedia.org/wikipedia/commons/thumb/f/f1/2ChocolateCake.jpg/800px-2ChocolateCake.jpg"]

/-- getWikimediaImage of the source.  The draw of Math.random is passed as the
rational r in the unit interval; the source picks the fallback entry at index
floor of r times four. -/
def getWikimediaImage (o : WikiOracle) (r : ℚ) (recipeName : String) : String :=
  match tryVariants o (wikiVariants recipeName) with
  | .ok (some u) => u
  | _ => fallbackImages.getD (⌊r * (4 : ℚ)⌋).toNat ""

/-! ### RecipeFetcher: fetchRecipeDetails and getRandomDessertRecipe -/

/-- The ingredient assembly loop of fetchRecipeDetails: slots one to twenty,
keeping a slot when its ingredient is truthy with a truthy trim, with the
trimmed name and the measure trimmed, defaulted to empty and unit-expanded. -/
def buildIngredients (ing mea : Nat → Option String) : List Ingredient :=
  (List.range' 1 20).filterMap (fun i =>
    match ing i with
    | some s =>
      if s != "" && jsTrim s != "" then
        some { name := jsTrim s, measure := expandUnits (jsTrim ((mea i).getD "")) }
      else none
    | none => none)

/-- The Recipe record built from one raw detail record, as the return object
of fetchRecipeDetails constructs it. -/
def assembleRecipe (meal : MealDetail) (img : WikiOracle) (r : ℚ) : Recipe :=
  { id := meal.idMeal
    name := meal.strMeal
    image :=
      if jsTruthy meal.strMealThumb && jsTrim ((meal.strMealThumb).getD "") != "" then
        (meal.strMealThumb).getD ""
      else getWikimediaImage img r meal.strMeal
    instructions := meal.strInstructions
    ingredients := buildIngredients meal.strIngredient meal.strMeasure
    category := meal.strCategory
    area := meal.strArea
    youtubeUrl := if jsTruthy meal.strYoutube then meal.strYoutube else none
    tags :=
      match meal.strTags with
      | some t => if t != "" then some ((t.splitOn ",").map (fun tag => jsTrim tag)) else none
      | none => none }

/-- fetchRecipeDetails of the source: throw on a non-success status, throw
when the record list is empty, otherwise assemble the full Recipe. -/
def fetchRecipeDetails (resp : MealDetailResponse) (img : WikiOracle) (r : ℚ) :
    Except ApiError Recipe :=
  if !resp.ok then
    .error (.network ("Failed to fetch recipe details: " ++ resp.statusText))
  else
    match resp.meals with
    | [] => .error .recordMissing
    | meal :: _ => .ok (assembleRecipe meal img r)

/-- getRandomDessertRecipe of the source: fetch the dessert listing (throwing
on a non-success status), fail when the listing is null or empty, otherwise
pick the entry at index floor of rPick times the length and delegate to
fetchRecipeDetails for its id.  The detail oracle maps a meal id to the
response of the lookup endpoint. -/
def getRandomDessertRecipe (resp : MealListResponse) (detail : String → MealDetailResponse)
    (img : WikiOracle) (rImg rPick : ℚ) : Except ApiError Recipe :=
  if !resp.ok then
    .error (.network ("Failed to fetch dessert recipes: " ++ resp.statusText))
  else
    match resp.meals with
    | none => .error .emptyCatalog
    | some ms =>
      if ms.length = 0 then .error .emptyCatalog
      else
        let randomIndex := (⌊rPick * (ms.length : ℚ)⌋).toNat
        fetchRecipeDetails (detail ((ms.getD randomIndex ⟨"", "", ""⟩).idMeal)) img rImg

/-! ### Derived characterizations of the assembly helpers -/

/-- Whether an ingredient slot survives the truthiness and blank checks of the
assembly loop. -/
def slotFilled (ing : Nat → Option String) (i : Nat) : Bool :=
  match ing i with
  | some s => s != "" && jsTrim s != ""
  | none => false

/-- The Ingredient emitted for a surviving slot. -/
def mkIngredient (ing mea : Nat → Option String) (i : Nat) : Ingredient :=
  { name := jsTrim ((ing i).getD ""), measure := expandUnits (jsTrim ((mea i).getD "")) }

/-! ### Helper lemmas -/

theorem mem_of_mem_dropWhile {α} {p : α → Bool} {c : α} :
    ∀ {l : List α}, c ∈ l.dropWhile p → c ∈ l := by
  intro l h
  induction l with
  | nil => simp at h
  | cons a l ih =>
    by_cases hp : p a = true
    · rw [List.dropWhile_cons, if_pos hp] at h
      exact List.mem_cons_of_mem a (ih h)
    · rw [List.dropWhile_cons, if_neg hp] at h
      exact h

theorem mem_of_mem_jsTrimList {c : Char} {l : List Char} (h : c ∈ jsTrimList l) : c ∈ l := by
  unfold jsTrimList at h
  rw [List.mem_reverse] at h
  have h2 := mem_of_mem_dropWhile h
  rw [List.mem_reverse] at h2
  exact mem_of_mem_dropWhile h2

theorem takeWhile_digits_append (ds body : List Char) (h : ∀ c ∈ ds, c.isDigit = true) :
    (ds ++ '.' :: body).takeWhile Char.isDigit = ds ∧
    (ds ++ '.' :: body).dropWhile Char.isDigit = '.' :: body := by
  induction ds with
  | nil => simp [List.takeWhile_cons, List.dropWhile_cons]
  | cons a ds ih =>
    have ha : a.isDigit = true := h a (by simp)
    have := ih (fun c hc => h c (by simp [hc]))
    simp [List.takeWhile_cons, List.dropWhile_cons, ha, this]

theorem matchNumberedAt_shape {s m after : List Char}
    (h : matchNumberedAt s = some (m, after)) :
    ∃ ds body, m = ds ++ '.' :: body ∧ ds ≠ [] ∧
      (∀ c ∈ ds, c.isDigit = true) ∧ (∀ c ∈ body, c.isDigit = false) := by
  have hdig : ∀ c ∈ s.takeWhile Char.isDigit, c.isDigit = true :=
    fun c hc => List.mem_takeWhile_imp hc
  have hbody : ∀ r2 : List Char, ∀ c ∈ r2.takeWhile (fun c => !c.isDigit),
      c.isDigit = false := by
    intro r2 c hc
    simpa using List.mem_takeWhile_imp hc
  unfold matchNumberedAt at h
  simp only [] at h
  split at h
  · exact absurd h (by simp)
  · next hds =>
    have hne : s.takeWhile Char.isDigit ≠ [] := by
      intro hemp
      rw [hemp] at hds
      exact hds rfl
    split at h
    · next r2 heq =>
      split at h
      · simp only [Option.some.injEq, Prod.mk.injEq] at h
        exact ⟨_, _, h.1.symm, hne, hdig, hbody r2⟩
      · split at h
        · simp only [Option.some.injEq, Prod.mk.injEq] at h
          exact ⟨_, _, h.1.symm, hne, hdig, hbody r2⟩
        · exact absurd h (by simp)
    · exact absurd h (by simp)

theorem mem_numberedMatchesAux {st : String} :
    ∀ (fuel : Nat) (s : List Char), st ∈ numberedMatchesAux fuel s →
      ∃ ds body, st.data = ds ++ '.' :: body ∧ ds ≠ [] ∧
        (∀ c ∈ ds, c.isDigit = true) ∧ (∀ c ∈ body, c.isDigit = false) := by
  intro fuel
  induction fuel with
  | zero => intro s h; simp [numberedMatchesAux] at h
  | succ f ih =>
    intro s h
    match s with
    | [] => simp [numberedMatchesAux] at h
    | c :: rest =>
      rw [numberedMatchesAux] at h
      cases hm : matchNumberedAt (c :: rest) with
      | none =>
        rw [hm] at h
        exact ih rest h
      | some p =>
        obtain ⟨m, after⟩ := p
        rw [hm] at h
        rcases List.mem_cons.mp h with hst | hst
        · obtain ⟨ds, body, hmeq, hne, hds, hbody⟩ := matchNumberedAt_shape hm
          exact ⟨ds, body, by rw [hst, hmeq], hne, hds, hbody⟩
        · exact ih after hst

theorem stripMarker_eq {m : String} {ds body : List Char} (hdata : m.data = ds ++ '.' :: body)
    (hne : ds ≠ []) (hds : ∀ c ∈ ds, c.isDigit = true) :
    stripMarker m = String.mk (body.dropWhile isJsWS) := by
  obtain ⟨htw, hdw⟩ := takeWhile_digits_append ds body hds
  have hemp : (m.data.takeWhile Char.isDigit).isEmpty = false := by
    rw [hdata, htw]
    cases ds with
    | nil => exact absurd rfl hne
    | cons a l => rfl
  have hdse : ds.isEmpty = false := by
    cases ds with
    | nil => exact absurd rfl hne
    | cons a l => rfl
  unfold stripMarker
  simp only [hdata, htw, hdw, hdse, Bool.false_eq_true, if_false]

theorem filterMap_eq_filter_map {α β : Type} (f : α → Option β) (p : α → Bool) (g : α → β)
    (hf : ∀ a, f a = if p a then some (g a) else none) :
    ∀ l : List α, l.filterMap f = (l.filter p).map g := by
  intro l
  induction l with
  | nil => simp
  | cons a l ih =>
    by_cases hp : p a = true
    · simp [List.filterMap_cons, List.filter_cons, hf a, hp, ih]
    · simp only [Bool.not_eq_true] at hp
      simp [List.filterMap_cons, List.filter_cons, hf a, hp, ih]

theorem tryResults_ok_some {o : WikiOracle} :
    ∀ {ts : List String} {u : String}, tryResults o ts = .ok (some u) → u ≠ "" := by
  intro ts
  induction ts with
  | nil => intro u h; simp [tryResults] at h
  | cons title rest ih =>
    intro u h
    rw [tryResults] at h
    split at h
    · exact ih h
    · split at h
      · exact absurd h (by simp)
      · split at h
        · split at h
          · next hcond =>
            simp only [Except.ok.injEq, Option.some.injEq] at h
            subst h
            exact bne_iff_ne.mp (Bool.and_elim_left hcond)
          · exact ih h
        · exact ih h

theorem tryVariants_ok_some {o : WikiOracle} :
    ∀ {vs : List String} {u : String}, tryVariants o vs = .ok (some u) → u ≠ "" := by
  intro vs
  induction vs with
  | nil => intro u h; simp [tryVariants] at h
  | cons v rest ih =>
    intro u h
    rw [tryVariants] at h
    split at h
    · exact absurd h (by simp)
    · split at h
      · exact absurd h (by simp)
      · next hr =>
        simp only [Except.ok.injEq, Option.some.injEq] at h
        subst h
        exact tryResults_ok_some hr
      · exact ih h

theorem floor_frac_toNat_lt {r : ℚ} {n : ℕ} (h0 : 0 ≤ r) (h1 : r < 1) (hn : 0 < n) :
    (⌊r * (n : ℚ)⌋).toNat < n := by
  have hcast : (0 : ℚ) < (n : ℚ) := by exact_mod_cast hn
  have hlt : r * (n : ℚ) < (n : ℚ) := by nlinarith
  have hfl : ⌊r * (n : ℚ)⌋ < (n : ℤ) := Int.floor_lt.mpr (by push_cast; exact hlt)
  have hge : (0 : ℤ) ≤ ⌊r * (n : ℚ)⌋ := Int.floor_nonneg.mpr (by positivity)
  omega

theorem fallbackImages_getD {i : ℕ} (h : i < 4) :
    fallbackImages.getD i "" ∈ fallbackImages ∧ fallbackImages.getD i "" ≠ "" := by
  interval_cases i <;> exact ⟨by decide, by decide⟩

theorem getWikimediaImage_spec (o : WikiOracle) (r : ℚ) (recipeName : String)
    (h0 : 0 ≤ r) (h1 : r < 1) :
    getWikimediaImage o r recipeName ≠ "" ∧
    (∀ u, tryVariants o (wikiVariants recipeName) = .ok (some u) →
      getWikimediaImage o r recipeName = u) ∧
    ((tryVariants o (wikiVariants recipeName) = .error () ∨
      tryVariants o (wikiVariants recipeName) = .ok none) →
      getWikimediaImage o r recipeName ∈ fallbackImages) := by
  have hidx : (⌊r * (4 : ℚ)⌋).toNat < 4 := by
    have := floor_frac_toNat_lt h0 h1 (n := 4) (by norm_num)
    simpa using this
  obtain ⟨hmem, hne⟩ := fallbackImages_getD hidx
  cases htv : tryVariants o (wikiVariants recipeName) with
  | error e =>
    cases e
    have hg : getWikimediaImage o r recipeName = fallbackImages.getD (⌊r * (4 : ℚ)⌋).toNat "" := by
      simp only [getWikimediaImage, htv]
    refine ⟨by rw [hg]; exact hne, ?_, fun _ => by rw [hg]; exact hmem⟩
    intro u hu
    exact absurd hu (by simp)
  | ok v =>
    cases v with
    | none =>
      have hg : getWikimediaImage o r recipeName = fallbackImages.getD (⌊r * (4 : ℚ)⌋).toNat "" := by
        simp only [getWikimediaImage, htv]
      refine ⟨by rw [hg]; exact hne, ?_, fun _ => by rw [hg]; exact hmem⟩
      intro u hu
      exact absurd hu (by simp)
    | some u =>
      have hg : getWikimediaImage o r recipeName = u := by
        simp only [getWikimediaImage, htv]
      refine ⟨by rw [hg]; exact tryVariants_ok_some htv, ?_, ?_⟩
      · intro u2 hu2
        simp only [Except.ok.injEq, Option.some.injEq] at hu2
        rw [hg, hu2]
      · intro hcase
        rcases hcase with hc | hc <;> exact absurd hc (by simp)

theorem assembleRecipe_image_ne (meal : MealDetail) (img : WikiOracle) (r : ℚ)
    (h0 : 0 ≤ r) (h1 : r < 1) : (assembleRecipe meal img r).image ≠ "" := by
  simp only [assembleRecipe]
  split
  · next hcond =>
    have h1' := Bool.and_elim_left hcond
    have h2' := Bool.and_elim_right hcond
    cases hmt : meal.strMealThumb with
    | none => rw [hmt] at h1'; exact absurd h1' (by simp [jsTruthy])
    | some sthumb =>
      rw [hmt] at h1'
      simp only [jsTruthy] at h1'
      simpa using bne_iff_ne.mp h1'
  · exact (getWikimediaImage_spec img r meal.strMeal h0 h1).1

/-! ### Sample data used by the witness theorems -/

/-- An oracle on which both Wikimedia endpoints fail, modelling total network
failure. -/
def oracleDown : WikiOracle :=
  { search := fun _ => .error (), imageInfo := fun _ => .error () }

/-- Ingredient slots with exactly three entries that are non-blank after
trimming: slots one, five and twenty; slot seven is whitespace only. -/
def sampleIngredientSlots : Nat → Option String := fun i =>
  if i = 1 then some "Apples"
  else if i = 5 then some " Sugar "
  else if i = 7 then some "  "
  else if i = 20 then some "Butter"
  else none

/-- Measure slots for the sample record; slot twenty is absent. -/
def sampleMeasureSlots : Nat → Option String := fun i =>
  if i = 1 then some "2 lbs"
  else if i = 5 then some "1/2 cup"
  else none

/-- A concrete raw detail record. -/
def sampleMeal : MealDetail :=
  { idMeal := "52893"
    strMeal := "Apple Crumble"
    strMealThumb := some "https://example.org/apple.jpg"
    strInstructions := "1. Mix. 2. Bake."
    strCategory := "Dessert"
    strArea := "British"
    strYoutube := some ""
    strTags := some "Pudding,Baking"
    strIngredient := sampleIngredientSlots
    strMeasure := sampleMeasureSlots }

/-- A detail oracle answering every id with the sample record. -/
def sampleDetailOracle : String → MealDetailResponse := fun _ =>
  { ok := true, statusText := "OK", meals := [sampleMeal] }

/-- A listing response whose meals field is the empty list. -/
def emptyListing : MealListResponse :=
  { ok := true, statusText := "OK", meals := some [] }

/-- A listing response with a single entry. -/
def oneListing : MealListResponse :=
  { ok := true, statusText := "OK", meals := some [⟨"52893", "Apple Crumble", "thumb.jpg"⟩] }

/-- Representative measure strings covering every unit abbreviation of the
source, the fraction glyphs, singular and plural quantities, leading zeros and
plain text. -/
def representativeMeasures : List String :=
  ["", "1 tsp", "2 tsp", "01 tsp", "3 tbsp", "1 T", "2 t", "1/2 cup", "1 1/2 tsp",
   "4 oz", "1 lb", "2 lbs", "1 pt", "2 qt", "1 gal", "2 fl oz", "100 g", "1 kg",
   "200 ml", "1 l", "Pinch of salt", "3 Tbsp. sugar"]

/-! ### Claim theorems -/

/-- C1 counterexample: on the input of the claim the numbered-marker strategy
returns the two steps Mix flour. and Bake at, not Bake at 350., because the
lazy non-digit capture of the source regex stops at the digit 3 and the
leftover 350. becomes a third match that strips to the empty string. -/
theorem claim_c1_counterexample :
    getInstructionSteps "1. Mix flour. 2. Bake at 350." = ["Mix flour.", "Bake at"] ∧
    getInstructionSteps "1. Mix flour. 2. Bake at 350." ≠ ["Mix flour.", "Bake at 350."] := by
  exact ⟨rfl, by decide⟩

/-- C1 (amended): with at least two numbered markers, the segmenter strips the
leading marker of each match, trims, and drops empty segments, but the text of
a segment runs only up to the next digit character rather than up to the next
marker; on the input of the claim this yields Mix flour. and Bake at, on
digit-free bodies it yields the full texts, and a marker directly followed by
another marker produces an empty segment that is dropped. -/
theorem claim_c1_amended :
    getInstructionSteps "1. Mix flour. 2. Bake at 350." = ["Mix flour.", "Bake at"] ∧
    getInstructionSteps "1. Mix flour. 2. Bake well." = ["Mix flour.", "Bake well."] ∧
    getInstructionSteps "1. Preheat oven. 2. 3. Serve warm." = ["Preheat oven.", "Serve warm."] := by
  exact ⟨rfl, rfl, rfl⟩

/-- C2 counterexample: a candidate of exactly 20 characters is discarded by
the fallback strategy, although the claim says every candidate of 20 or more
characters is retained; the length filter of the source is strict. -/
theorem claim_c2_counterexample :
    ("Stir gently the pot.").length = 20 ∧
    getInstructionSteps "Stir gently the pot." = [] ∧
    getInstructionSteps "Stir gently the pot." ≠ ["Stir gently the pot."] := by
  exact ⟨rfl, rfl, by decide⟩

/-- C2 (amended): when the numbered-marker strategy yields at most one match,
the result consists exactly of the trimmed split candidates of more than 20
characters, each with a period appended unless already present; candidates of
20 or fewer characters are discarded. -/
theorem claim_c2_amended (instructions : String)
    (h : (numberedMatches instructions).length ≤ 1) :
    (∀ st ∈ getInstructionSteps instructions,
      ∃ c ∈ sentenceSplit instructions, 20 < (jsTrim c).length ∧ st = ensureDot (jsTrim c)) ∧
    (∀ c ∈ sentenceSplit instructions, 20 < (jsTrim c).length →
      ensureDot (jsTrim c) ∈ getInstructionSteps instructions) := by
  have hcond : ¬ (numberedMatches instructions).length > 1 := by omega
  constructor
  · intro st hst
    simp only [getInstructionSteps, if_neg hcond, List.mem_map, List.mem_filter] at hst
    obtain ⟨b, ⟨⟨c, hc, hbc⟩, hlen⟩, hst⟩ := hst
    subst hbc
    refine ⟨c, hc, by simpa using hlen, hst.symm⟩
  · intro c hc hlen
    simp only [getInstructionSteps, if_neg hcond, List.mem_map, List.mem_filter]
    exact ⟨jsTrim c, ⟨⟨c, hc, rfl⟩, by simpa using hlen⟩, rfl⟩

/-- C2 witness: instantiation of the amended fallback characterization on a
concrete digit-free instruction of 37 characters. -/
theorem claim_c2_witness :
    ensureDot (jsTrim "Mix all of the ingredients thoroughly") ∈
      getInstructionSteps "Mix all of the ingredients thoroughly" :=
  (claim_c2_amended "Mix all of the ingredients thoroughly" (by decide)).2
    "Mix all of the ingredients thoroughly" (by decide) (by decide)

/-- C3 counterexample: the leading digit sequence 01 differs from the string
1, so the claim demands the plural, but the source compares with parseInt and
keeps the singular. -/
theorem claim_c3_counterexample :
    expandUnits "01 tsp" = "01 teaspoon" ∧ expandUnits "01 tsp" ≠ "01 teaspoons" := by
  exact ⟨rfl, by decide⟩

/-- C3 (amended): teaspoon, tablespoon and ounce are pluralized exactly when
the numeric value of the leading digit sequence differs from one, so that
leading-zero spellings of one stay singular; in particular expand of 1 tsp is
1 teaspoon and expand of 2 tsp is 2 teaspoons. -/
theorem claim_c3_amended :
    expandUnits "1 tsp" = "1 teaspoon" ∧
    expandUnits "2 tsp" = "2 teaspoons" ∧
    expandUnits "0 tsp" = "0 teaspoons" ∧
    expandUnits "01 tsp" = "01 teaspoon" ∧
    expandUnits "001 tbsp" = "001 tablespoon" ∧
    expandUnits "2 tbsp" = "2 tablespoons" ∧
    expandUnits "10 oz" = "10 ounces" ∧
    expandUnits "1 oz" = "1 ounce" := by
  exact ⟨rfl, rfl, rfl, rfl, rfl, rfl, rfl, rfl⟩

/-- C4: fetchRecipeDetails reports a network error on a non-success status,
reports the missing-record error when the response carries zero records, and
otherwise returns the fully assembled Recipe with a non-empty image; every
outcome is one of these three. -/
theorem claim_c4 (resp : MealDetailResponse) (img : WikiOracle) (r : ℚ)
    (h0 : 0 ≤ r) (h1 : r < 1) :
    (resp.ok = false →
      fetchRecipeDetails resp img r =
        .error (.network ("Failed to fetch recipe details: " ++ resp.statusText))) ∧
    (resp.ok = true → resp.meals = [] →
      fetchRecipeDetails resp img r = .error .recordMissing) ∧
    (∀ meal rest, resp.ok = true → resp.meals = meal :: rest →
      fetchRecipeDetails resp img r = .ok (assembleRecipe meal img r) ∧
      (assembleRecipe meal img r).image ≠ "") ∧
    (fetchRecipeDetails resp img r =
        .error (.network ("Failed to fetch recipe details: " ++ resp.statusText)) ∨
      fetchRecipeDetails resp img r = .error .recordMissing ∨
      ∃ meal rest, resp.meals = meal :: rest ∧
        fetchRecipeDetails resp img r = .ok (assembleRecipe meal img r)) := by
  refine ⟨?_, ?_, ?_, ?_⟩
  · intro hok
    simp [fetchRecipeDetails, hok]
  · intro hok hml
    simp [fetchRecipeDetails, hok, hml]
  · intro meal rest hok hml
    exact ⟨by simp [fetchRecipeDetails, hok, hml], assembleRecipe_image_ne meal img r h0 h1⟩
  · by_cases hok : resp.ok = true
    · cases hml : resp.meals with
      | nil => exact Or.inr (Or.inl (by simp [fetchRecipeDetails, hok, hml]))
      | cons meal rest =>
        exact Or.inr (Or.inr ⟨meal, rest, rfl, by simp [fetchRecipeDetails, hok, hml]⟩)
    · have hok2 : resp.ok = false := by simpa using hok
      exact Or.inl (by simp [fetchRecipeDetails, hok2])

/-- C4 witness: the three outcomes at concrete responses. -/
theorem claim_c4_witness :
    fetchRecipeDetails ⟨false, "Server Error", []⟩ oracleDown 0 =
      .error (.network ("Failed to fetch recipe details: " ++ "Server Error")) ∧
    fetchRecipeDetails ⟨true, "OK", []⟩ oracleDown 0 = .error .recordMissing ∧
    fetchRecipeDetails ⟨true, "OK", [sampleMeal]⟩ oracleDown 0 =
      .ok (assembleRecipe sampleMeal oracleDown 0) :=
  ⟨(claim_c4 ⟨false, "Server Error", []⟩ oracleDown 0 le_rfl (by norm_num)).1 rfl,
   (claim_c4 ⟨true, "OK", []⟩ oracleDown 0 le_rfl (by norm_num)).2.1 rfl rfl,
   ((claim_c4 ⟨true, "OK", [sampleMeal]⟩ oracleDown 0 le_rfl (by norm_num)).2.2.1
      sampleMeal [] rfl rfl).1⟩

/-- C5: getRandomDessertRecipe fails with the empty-catalog error on a null or
empty listing without consulting the detail oracle at all, and on a non-empty
listing it picks the index given by the floor of the random draw times the
length, which is always in range, and delegates to fetchRecipeDetails for the
id of that entry. -/
theorem claim_c5 (resp : MealListResponse) (detail : String → MealDetailResponse)
    (img : WikiOracle) (rImg rPick : ℚ) (hp0 : 0 ≤ rPick) (hp1 : rPick < 1) :
    (resp.ok = true → (resp.meals = none ∨ resp.meals = some []) →
      getRandomDessertRecipe resp detail img rImg rPick = .error .emptyCatalog ∧
      ∀ detail2, getRandomDessertRecipe resp detail2 img rImg rPick =
        getRandomDessertRecipe resp detail img rImg rPick) ∧
    (∀ m ms, resp.ok = true → resp.meals = some (m :: ms) →
      (⌊rPick * ((m :: ms).length : ℚ)⌋).toNat < (m :: ms).length ∧
      getRandomDessertRecipe resp detail img rImg rPick =
        fetchRecipeDetails
          (detail (((m :: ms).getD (⌊rPick * ((m :: ms).length : ℚ)⌋).toNat ⟨"", "", ""⟩).idMeal))
          img rImg) := by
  constructor
  · intro hok hempty
    have hresult : ∀ d : String → MealDetailResponse,
        getRandomDessertRecipe resp d img rImg rPick = .error .emptyCatalog := by
      intro d
      rcases hempty with he | he <;> simp [getRandomDessertRecipe, hok, he]
    exact ⟨hresult detail, fun d2 => (hresult d2).trans (hresult detail).symm⟩
  · intro m ms hok hml
    refine ⟨floor_frac_toNat_lt hp0 hp1 (by simp), ?_⟩
    simp [getRandomDessertRecipe, hok, hml]

/-- C5 witness: the empty listing raises the empty-catalog error, and a
one-entry listing delegates to the detail fetch of that entry. -/
theorem claim_c5_witness :
    getRandomDessertRecipe emptyListing sampleDetailOracle oracleDown 0 0 =
      .error .emptyCatalog ∧
    getRandomDessertRecipe oneListing sampleDetailOracle oracleDown 0 0 =
      fetchRecipeDetails (sampleDetailOracle "52893") oracleDown 0 := by
  constructor
  · exact ((claim_c5 emptyListing sampleDetailOracle oracleDown 0 0 le_rfl
      (by norm_num)).1 rfl (Or.inr rfl)).1
  · have h2 := ((claim_c5 oneListing sampleDetailOracle oracleDown 0 0 le_rfl
      (by norm_num)).2 ⟨"52893", "Apple Crumble", "thumb.jpg"⟩ [] rfl rfl).2
    simpa using h2

/-- C6: the ingredient assembly is exactly the slots one to twenty whose
ingredient is non-blank after trimming, in slot order, each emitted with the
trimmed name and the trimmed, defaulted and unit-expanded measure; its length
is the number of such slots, and a record with exactly three of them yields a
list of length three. -/
theorem claim_c6 (ing mea : Nat → Option String) :
    buildIngredients ing mea =
      ((List.range' 1 20).filter (fun i => slotFilled ing i)).map (mkIngredient ing mea) ∧
    (buildIngredients ing mea).length =
      ((List.range' 1 20).filter (fun i => slotFilled ing i)).length ∧
    (((List.range' 1 20).filter (fun i => slotFilled ing i)).length = 3 →
      (buildIngredients ing mea).length = 3) := by
  have hpoint : ∀ i : Nat, (match ing i with
      | some s =>
        if s != "" && jsTrim s != "" then
          some { name := jsTrim s, measure := expandUnits (jsTrim ((mea i).getD "")) }
        else none
      | none => (none : Option Ingredient)) =
      if slotFilled ing i then some (mkIngredient ing mea i) else none := by
    intro i
    cases hi : ing i with
    | none => simp [slotFilled, hi]
    | some str =>
      by_cases hcond : (str != "" && jsTrim str != "") = true
      · simp [slotFilled, hi, hcond, mkIngredient]
      · simp [slotFilled, hi, hcond, mkIngredient]
  have heq : buildIngredients ing mea =
      ((List.range' 1 20).filter (fun i => slotFilled ing i)).map (mkIngredient ing mea) := by
    unfold buildIngredients
    exact filterMap_eq_filter_map _ _ (mkIngredient ing mea) hpoint _
  refine ⟨heq, ?_, ?_⟩
  · rw [heq, List.length_map]
  · intro h3
    rw [heq, List.length_map, h3]

/-- C6 witness: the sample slots have exactly three non-blank ingredients and
the assembled list has length three. -/
theorem claim_c6_witness :
    (buildIngredients sampleIngredientSlots sampleMeasureSlots).length = 3 :=
  (claim_c6 sampleIngredientSlots sampleMeasureSlots).2.2 (by decide)

/-- C7: getWikimediaImage always returns a non-empty URL, the fallback pool
has at least four entries, and whenever the search chain ends in an error or
without an accepted URL the result is drawn from the fallback pool. -/
theorem claim_c7 (o : WikiOracle) (r : ℚ) (recipeName : String)
    (h0 : 0 ≤ r) (h1 : r < 1) :
    getWikimediaImage o r recipeName ≠ "" ∧
    4 ≤ fallbackImages.length ∧
    ((tryVariants o (wikiVariants recipeName) = .error () ∨
      tryVariants o (wikiVariants recipeName) = .ok none) →
      getWikimediaImage o r recipeName ∈ fallbackImages) := by
  obtain ⟨hne, -, hfb⟩ := getWikimediaImage_spec o r recipeName h0 h1
  exact ⟨hne, by decide, hfb⟩

/-- C7 witness: with both endpoints failing, the resolver still returns a
non-empty URL and it belongs to the fallback pool. -/
theorem claim_c7_witness :
    getWikimediaImage oracleDown 0 "Chocolate Cake" ≠ "" ∧
    getWikimediaImage oracleDown 0 "Chocolate Cake" ∈ fallbackImages :=
  ⟨(claim_c7 oracleDown 0 "Chocolate Cake" le_rfl (by norm_num)).1,
   (claim_c7 oracleDown 0 "Chocolate Cake" le_rfl (by norm_num)).2.2 (Or.inl rfl)⟩

/-- C8: expandUnits is idempotent on the representative measure strings;
re-running it neither double-pluralizes nor re-expands any unit word. -/
theorem claim_c8 :
    (representativeMeasures.all
      (fun x => expandUnits (expandUnits x) == expandUnits x)) = true := by
  rfl

/-- C9: expandUnits substitutes the six ASCII vulgar fractions with their
Unicode glyphs before any unit-word expansion, and returns empty input
unchanged; the last conjunct shows the ordering, since the fraction glyph is
what creates the word boundary that lets the single-letter unit expand. -/
theorem claim_c9 :
    expandUnits "" = "" ∧
    expandUnits "1/2 cup" = "½ cup" ∧
    expandUnits "1/3 cup" = "⅓ cup" ∧
    expandUnits "2/3 cup" = "⅔ cup" ∧
    expandUnits "1/4 cup" = "¼ cup" ∧
    expandUnits "3/4 cup" = "¾ cup" ∧
    expandUnits "1/8 tsp" = "⅛ teaspoon" ∧
    expandUnits "1/2t" = "½teaspoon" := by
  exact ⟨rfl, rfl, rfl, rfl, rfl, rfl, rfl, rfl⟩

/-- C10: when the numbered-marker strategy applies, no returned step contains
a decimal digit, because the capture of each match stops at the first digit
after its marker. -/
theorem claim_c10 (instructions : String)
    (h : 1 < (numberedMatches instructions).length) :
    ∀ st ∈ getInstructionSteps instructions, ∀ c ∈ st.data, c.isDigit = false := by
  intro st hst c hc
  have hcond : (numberedMatches instructions).length > 1 := h
  simp only [getInstructionSteps, if_pos hcond, List.mem_filter, List.mem_map] at hst
  obtain ⟨⟨m, hm, hst2⟩, -⟩ := hst
  obtain ⟨ds, body, hdata, hne, hds, hbody⟩ := mem_numberedMatchesAux _ _ hm
  rw [stripMarker_eq hdata hne hds] at hst2
  subst hst2
  have hc2 : c ∈ jsTrimList (body.dropWhile isJsWS) := hc
  exact hbody c (mem_of_mem_dropWhile (mem_of_mem_jsTrimList hc2))

/-- C10 witness: instantiation on a concrete two-step instruction where the
letter i of the first returned step is not a digit. -/
theorem claim_c10_witness : ('i').isDigit = false :=
  claim_c10 "1. Mix well. 2. Bake." (by decide) "Mix well." (by decide) 'i' (by decide)
